import Mathlib

/-!
Verification of the `vedirect_m8` VE.Direct decoder core.

Shallow embedding of the byte-level VE.Direct protocol state machine and
its companion helpers from `vedirect_m8`, with theorems settling the
frozen claims about the specification.

The embedding follows `src/vedirect_m8/vedirect.py`
(`VedirectReaderHelper`, `Vedirect.input_read`, `VedirectTools`),
`src/vedirect_m8/sertest.py` (`SerialTestHelper`),
`src/vedirect_m8/packet_stats.py` (`PacketStats`), and
`src/vedirect_m8/vepackets_app.py` (`VePacketsApp`).

Conventions: a serial byte is a `Nat` (the value of Python `ord(byte)`,
so `0 ≤ b ≤ 255` for a real one-byte read); the key and value scratch
buffers and the map keys/values are byte lists (`List Nat`), so that the
Python `byte.decode('ascii')` failure on bytes `≥ 0x80` is modelled
explicitly; the insertion-ordered Python `dict` is an association list
updated in place.
-/

namespace VedirectM8

/-- Delimiter byte `HEADER1 = ord('\r') = 13` (`VedirectReaderHelper._delimiters`). -/
def header1 : Nat := 13

/-- Delimiter byte `HEADER2 = ord('\n') = 10`. -/
def header2 : Nat := 10

/-- Delimiter byte `HEXMARK = ord(':') = 58` (`hexmarker`). -/
def hexmarker : Nat := 58

/-- Delimiter byte `TAB = ord('\t') = 9` (`delimiter`). -/
def delimiter : Nat := 9

/-- The five states of `VedirectReaderHelper`:
`(HEX, WAIT_HEADER, IN_KEY, IN_VALUE, IN_CHECKSUM) = range(5)`. -/
inductive RState where
  | hex
  | waitHeader
  | inKey
  | inValue
  | inChecksum
  deriving DecidableEq, Repr

/-- The bytes of the literal string `"Checksum"`, against which
`run_in_key` compares the accumulated key. -/
def checksumKey : List Nat := [67, 104, 101, 99, 107, 115, 117, 109]

/-- An insertion-ordered string-to-string map (Python `dict`),
keys and values as ASCII byte lists. -/
abbrev Dict := List (List Nat × List Nat)

/-- Python `d[k] = v` on an insertion-ordered dict: overwrite in place if
the key is present, else append at the end. -/
def dictSet (d : Dict) (k v : List Nat) : Dict :=
  if d.any (fun kv => kv.1 = k) then
    d.map (fun kv => if kv.1 = k then (k, v) else kv)
  else
    d ++ [(k, v)]

/-- The mutable fields of `VedirectReaderHelper`: `max_blocks`
(`None` disables the limit), the `key`/`value` scratch buffers,
`bytes_sum`, `state` and the in-progress `dict`. -/
structure VeState where
  maxBlocks : Option Nat
  key : List Nat
  value : List Nat
  bytesSum : Nat
  state : RState
  dict : Dict
  deriving DecidableEq, Repr

/-- The helper right after construction / `reset_data_read`:
`key = ''`, `value = ''`, `bytes_sum = 0`, `state = WAIT_HEADER`,
`dict = {}`. -/
def initState (maxBlocks : Option Nat) : VeState :=
  { maxBlocks := maxBlocks, key := [], value := [], bytesSum := 0,
    state := .waitHeader, dict := [] }

/-- Models `VedirectReaderHelper.reset_data_read`: clears the scratch buffers,
the byte sum, the state and the map (it does not touch `max_blocks`). -/
def resetDataRead (s : VeState) : VeState :=
  { s with key := [], value := [], bytesSum := 0,
           state := .waitHeader, dict := [] }

/-- The exceptions `Vedirect.input_read` can raise, one constructor per
raise site: the three `PacketReadException`s (unexpected header in the
key/value states, max-blocks overrun in `run_in_value`, checksum
mismatch in `run_in_checksum` — the latter's message carries
`bytes_sum % 256` and the current map) and `InputReadException`
(any other failure while processing a byte, e.g. a non-ASCII byte
appended to the key or value buffer). -/
inductive VeError where
  | unexpectedHeader (packet : Dict)
  | maxBlocks (packet : Dict)
  | checksumMismatch (checksum : Nat) (packet : Dict)
  | inputRead
  deriving DecidableEq, Repr

deriving instance DecidableEq for Except

/-- Whether an error is a `PacketReadException` (vs `InputReadException`). -/
def VeError.isPacketRead : VeError → Bool
  | .unexpectedHeader _ => true
  | .maxBlocks _ => true
  | .checksumMismatch _ _ => true
  | .inputRead => false

/-- Models `VedirectReaderHelper.has_free_block`:
`max_blocks is None or len(dict) <= max_blocks`. -/
def hasFreeBlock (s : VeState) : Bool :=
  match s.maxBlocks with
  | none => true
  | some k => s.dict.length ≤ k

/-- Models `VedirectReaderHelper.is_unexpected_header`: header1/header2 while in
`IN_KEY`, or header2 while in `IN_VALUE`. -/
def isUnexpectedHeader (s : VeState) (data : Nat) : Bool :=
  (s.state = .inKey ∧ (data = header1 ∨ data = header2))
    ∨ (s.state = .inValue ∧ data = header2)

/-- Models `VedirectReaderHelper.run_wait_header`: add the byte to the sum;
on header1 stay in `WAIT_HEADER`, on header2 go to `IN_KEY`, else stay. -/
def runWaitHeader (s : VeState) (data : Nat) : VeState :=
  if data = header1 then
    { s with bytesSum := s.bytesSum + data, state := .waitHeader }
  else if data = header2 then
    { s with bytesSum := s.bytesSum + data, state := .inKey }
  else
    { s with bytesSum := s.bytesSum + data }

/-- Models `VedirectReaderHelper.run_in_key`: add the byte to the sum; on TAB go
to `IN_CHECKSUM` if the key reads `"Checksum"`, else to `IN_VALUE`;
otherwise append the byte to the key (`byte.decode('ascii')` fails for
bytes `≥ 0x80`, surfacing as `InputReadException`). -/
def runInKey (s : VeState) (data : Nat) : Except VeError VeState :=
  if data = delimiter then
    if s.key = checksumKey then
      .ok { s with bytesSum := s.bytesSum + data, state := .inChecksum }
    else
      .ok { s with bytesSum := s.bytesSum + data, state := .inValue }
  else if data ≤ 127 then
    .ok { s with bytesSum := s.bytesSum + data, key := s.key ++ [data] }
  else .error .inputRead

/-- Models `VedirectReaderHelper.run_in_value`: add the byte to the sum; on
header1 commit `key → value` into the map (raising `PacketReadException`
when `has_free_block` fails, i.e. `len(dict) > max_blocks`), else append
the byte to the value. The Python code updates `bytes_sum` before the
`has_free_block` test, but that test reads only `dict` and `max_blocks`,
so testing it first is equivalent. -/
def runInValue (s : VeState) (data : Nat) : Except VeError VeState :=
  if data = header1 then
    if hasFreeBlock s = false then .error (.maxBlocks s.dict)
    else
      .ok { s with bytesSum := s.bytesSum + data, state := .waitHeader,
                   dict := dictSet s.dict s.key s.value,
                   key := [], value := [] }
  else if data ≤ 127 then
    .ok { s with bytesSum := s.bytesSum + data, value := s.value ++ [data] }
  else .error .inputRead

/-- Models `VedirectReaderHelper.run_in_checksum`: add the byte to the sum,
clear key/value, go back to `WAIT_HEADER`; if `bytes_sum % 256 == 0`
reset the sum and return the map as the packet, else raise
`PacketReadException` carrying `bytes_sum % 256` and the map. -/
def runInChecksum (s : VeState) (data : Nat) :
    Except VeError (VeState × Option Dict) :=
  if (s.bytesSum + data) % 256 = 0 then
    .ok ({ s with bytesSum := 0, key := [], value := [],
                  state := .waitHeader }, some s.dict)
  else
    .error (.checksumMismatch ((s.bytesSum + data) % 256) s.dict)

/-- Models `VedirectReaderHelper.run_in_hex`: reset the byte sum to 0; on
header1 (`'\r'`) go back to `WAIT_HEADER`, else stay in `HEX`. -/
def runInHex (s : VeState) (data : Nat) : VeState :=
  if data = header1 then { s with bytesSum := 0, state := .waitHeader }
  else { s with bytesSum := 0 }

/-- Models `Vedirect.input_read`: fail on an unexpected header; on `HEXMARK`
outside `IN_CHECKSUM` switch to `HEX` before dispatching, so that the
`HEXMARK` byte itself is handled by `run_in_hex`; otherwise dispatch the
byte to the handler of the current state. Returns the decoded packet
when `run_in_checksum` accepts one. -/
def inputRead (s : VeState) (data : Nat) :
    Except VeError (VeState × Option Dict) :=
  if isUnexpectedHeader s data then
    .error (.unexpectedHeader s.dict)
  else if data = hexmarker ∧ s.state ≠ .inChecksum then
    .ok (runInHex { s with state := .hex } data, none)
  else
    match s.state with
    | .waitHeader => .ok (runWaitHeader s data, none)
    | .inKey => (runInKey s data).map (fun t => (t, none))
    | .inValue => (runInValue s data).map (fun t => (t, none))
    | .inChecksum => runInChecksum s data
    | .hex => .ok (runInHex s data, none)

/-- Feed a byte sequence that is meant to be accepted as one frame:
every byte must decode without error, no packet may be produced before
the last byte, and the last byte must produce the packet. Returns the
resulting helper state together with the delivered packet. -/
def runFrame (s : VeState) : List Nat → Option (VeState × Dict)
  | [] => none
  | [b] =>
    match inputRead s b with
    | .ok (t, some p) => some (t, p)
    | _ => none
  | b :: bs =>
    match inputRead s b with
    | .ok (t, none) => runFrame t bs
    | _ => none

/-- Feed a byte sequence through `input_read` without any reset,
requiring every byte to decode without error (packets delivered along
the way leave the threaded helper state untouched, exactly as in
`input_read`); returns the final helper state. -/
def feedOk (s : VeState) : List Nat → Option VeState
  | [] => some s
  | b :: bs =>
    match inputRead s b with
    | .ok (t, _) => feedOk t bs
    | .error _ => none


/-- One iteration of the `Vedirect.read_data_single` loop around
`input_read`, restricted to the decoder-state effects: when `input_read`
returns a packet the loop calls `reset_data_read` and returns; when it
raises (`InputReadException`, `PacketReadException` or a serial error)
every handler calls `reset_data_read` before re-raising or continuing.
`none` means the loop keeps feeding bytes without resetting. Resetting
the pre-step state on the error path is faithful because
`reset_data_read` overwrites every field `input_read` can mutate except
`max_blocks`, which `input_read` never changes. -/
def readSingleIteration (s : VeState) (b : Nat) : Option VeState :=
  match inputRead s b with
  | .ok (t, some _) => some (resetDataRead t)
  | .ok (_, none) => none
  | .error _ => some (resetDataRead s)

/-- Models `VedirectTools.is_max_read_error(max_value, counter)`: the loop
re-raises an error of a class when this returns `True`. The code returns
`True` when `max_value == 0`, and when `max_value > 0` and
`0 <= counter <= max_value`. -/
def isMaxReadError (maxValue counter : Int) : Bool :=
  if maxValue = 0 then true
  else if maxValue > 0 ∧ 0 ≤ counter ∧ counter ≤ maxValue then true
  else false

/-- The invariant behind claim C6: no committed key reads `"Checksum"`,
and while in `IN_VALUE` the pending key does not read `"Checksum"`
(the only transition into `IN_VALUE` is the TAB branch of `run_in_key`
with a key different from `"Checksum"`). -/
def NoChecksumKey (s : VeState) : Prop :=
  (∀ kv ∈ s.dict, kv.1 ≠ checksumKey)
    ∧ (s.state = .inValue → s.key ≠ checksumKey)

/-- The invariant behind claim C2: the in-progress map never exceeds
`max_blocks + 1` entries (the commit guard `len(dict) <= max_blocks`
runs before the insertion, so one extra entry beyond `max_blocks` gets
through). -/
def BlockBound (s : VeState) : Prop :=
  ∀ k, s.maxBlocks = some k → s.dict.length ≤ k + 1

/-- The wire bytes of the frame `\r\nA\t1\r\nChecksum\t<27>`;
byte 27 makes the total sum `1024 = 4 * 256`. -/
def frameOneField : List Nat :=
  [13, 10, 65, 9, 49, 13, 10] ++ checksumKey ++ [9, 27]

/-- The wire bytes of the frame `\r\nA\t1\r\nB\t2\r\nChecksum\t<135>`;
byte 135 makes the total sum `1280 = 5 * 256`. -/
def frameTwoFields : List Nat :=
  [13, 10, 65, 9, 49, 13, 10, 66, 9, 50, 13, 10] ++ checksumKey ++ [9, 135]

/-- A hex frame `:Q\r` followed by `\nChecksum\t<186>`: the hex bytes
zero the running sum, the `\r` closing the hex segment is absorbed, and
byte 186 makes the sum accumulated from `\n` onwards equal to
`1024 = 4 * 256`, so the decoder accepts an (empty) packet although the
total byte sum of the sequence is `1176 ≡ 152 (mod 256)`. -/
def hexPrefixedFrame : List Nat :=
  [58, 81, 13, 10] ++ checksumKey ++ [9, 186]

/-! ### `SerialTestHelper` (`src/vedirect_m8/sertest.py`) -/

/-- A packet as the identity tester sees it: an insertion-ordered map
from field label to raw string. -/
abbrev SPacket := List (String × String)

/-- Python `key in serial_data`. -/
def spHasKey (d : SPacket) (k : String) : Bool :=
  d.any (fun kv => kv.1 == k)

/-- Python `serial_data.get(key)`. -/
def spLookup (d : SPacket) (k : String) : Option String :=
  (d.find? (fun kv => kv.1 == k)).map (fun kv => kv.2)

/-- One character of the main group of
`SerialUtils.is_serial_key_pattern`'s regex: `[a-zA-Z\d#]`. -/
def isSerialKeyChar (c : Char) : Bool :=
  ('a' ≤ c && c ≤ 'z') || ('A' ≤ c && c ≤ 'Z')
    || ('0' ≤ c && c ≤ '9') || c == '#'

/-- No two consecutive underscores. -/
def noDoubleUnderscore : List Char → Bool
  | [] => true
  | [_] => true
  | a :: b :: rest =>
    !(a == '_' && b == '_') && noDoubleUnderscore (b :: rest)

/-- Models `SerialUtils.is_serial_key_pattern`, the regex
`(?=[a-zA-Z\d_#]{1,30}$)^([a-zA-Z\d#]+(?:_[a-zA-Z\d#]+)*)$`:
1 to 30 characters drawn from `[a-zA-Z0-9_#]`, parsed as non-empty
groups of `[a-zA-Z0-9#]` joined by single underscores — equivalently,
no leading, trailing or doubled underscore. -/
def isSerialKeyPattern (s : String) : Bool :=
  let cs := s.toList
  decide (1 ≤ cs.length) && decide (cs.length ≤ 30)
    && cs.all (fun c => isSerialKeyChar c || c == '_')
    && (match cs with | [] => false | c :: _ => !(c == '_'))
    && (match cs.getLast? with | some c => !(c == '_') | none => false)
    && noDoubleUnderscore cs

/-- A validated sub-test of an identity-test spec: the dictionaries
`{"typeTest": "value", "key": k, "value": v}` and
`{"typeTest": "columns", "keys": ks}` of `sertest.py`. -/
inductive SubTest where
  | value (key expected : String)
  | columns (keys : List String)
  deriving DecidableEq, Repr

/-- Models `SerialTestHelper.is_value_test`: a non-empty dict whose `typeTest`
is `"value"`, whose key matches the serial-key pattern and whose
expected value is present (the last two hold by construction here). -/
def isValueTest : SubTest → Bool
  | .value k _ => isSerialKeyPattern k
  | .columns _ => false

/-- Models `SerialTestHelper.is_columns_list_test`: a non-empty dict whose
`typeTest` is `"columns"` with a non-empty `keys` list. -/
def isColumnsListTest : SubTest → Bool
  | .columns ks => !ks.isEmpty
  | .value _ _ => false

/-- Models `SerialTestHelper.run_value_test`: `False` unless the sub-test is a
well-formed value test, the packet a non-empty dict and the key present;
then compare the packet's value with the expected one. -/
def runValueTest (t : SubTest) (data : SPacket) : Bool :=
  match t with
  | .value k v =>
    if isValueTest t && !data.isEmpty && spHasKey data k then
      spLookup data k == some v
    else false
  | .columns _ => false

/-- Models `SerialTestHelper.run_columns_test`: `False` unless the sub-test is
a well-formed columns test and the packet a non-empty dict; then require
every listed key to be present. -/
def runColumnsTest (t : SubTest) (data : SPacket) : Bool :=
  match t with
  | .columns ks =>
    isColumnsListTest t && !data.isEmpty && ks.all (spHasKey data)
  | .value _ _ => false

/-- Models `SerialTestHelper.run_serial_tests`: `False` without configured
tests; otherwise `True` unless some value sub-test fails
`run_value_test` or some columns sub-test fails `run_columns_test`. -/
def runSerialTests (tests : List SubTest) (data : SPacket) : Bool :=
  if tests.isEmpty then false
  else tests.all (fun t =>
    match t with
    | .value _ _ => runValueTest t data
    | .columns _ => runColumnsTest t data)

/-- Well-formedness established by
`SerialTestHelper.validate_serial_tests` for each sub-test. -/
def wellFormedSubTest : SubTest → Bool
  | .value k _ => isSerialKeyPattern k
  | .columns ks => !ks.isEmpty

/-- What the specification means by a packet satisfying a sub-test: a
value sub-test requires the packet to map the key to exactly the
expected string; a columns sub-test requires every listed key to be
present. -/
def satisfiesSubTest (data : SPacket) : SubTest → Prop
  | .value k v => spLookup data k = some v
  | .columns ks => ∀ key ∈ ks, spHasKey data key = true

instance (data : SPacket) : ∀ t : SubTest, Decidable (satisfiesSubTest data t)
  | .value k v => inferInstanceAs (Decidable (spLookup data k = some v))
  | .columns ks =>
    inferInstanceAs (Decidable (∀ key ∈ ks, spHasKey data key = true))

/-! ### `PacketStats` (`src/vedirect_m8/packet_stats.py`) -/

/-- The per-slot fingerprint `{'nb': len(packet), 'keys': list(packet.keys())}`
built by `PacketStats.get_stats_from_packet`. -/
structure StatFingerprint where
  nb : Nat
  keys : List String
  deriving DecidableEq, Repr

/-- Models `PacketStats.get_stats_from_packet`: `None` for an empty packet. -/
def getStatsFromPacket (packet : SPacket) : Option StatFingerprint :=
  if packet.isEmpty then none
  else some ⟨packet.length, packet.map (fun kv => kv.1)⟩

/-- Models `PacketStats.MAX_STAT_PACKETS = 10`. -/
def MAX_STAT_PACKETS : Nat := 10

/-- Models `PacketStats.can_add_stats`: `len(self._stats) + 1 < MAX_STAT_PACKETS`. -/
def canAddStats (stats : List StatFingerprint) : Bool :=
  stats.length + 1 < MAX_STAT_PACKETS

/-- Models `PacketStats.add_stats`: append the packet's fingerprint when it is
non-trivial and `can_add_stats` holds; otherwise return `False` without
touching the registry (no exception). -/
def addStats (stats : List StatFingerprint) (packet : SPacket) :
    List StatFingerprint × Bool :=
  match getStatsFromPacket packet with
  | some fp => if canAddStats stats then (stats ++ [fp], true) else (stats, false)
  | none => (stats, false)

/-- One registered slot of `PacketStats._stats`: the fingerprint dict,
possibly extended in place by the flow fields `last_index`, `step`,
`is_linear`, `nb_linear` and `nb_resets` (absent before the first
update, hence the `Option`s). -/
structure StatEntry where
  nb : Nat
  keys : List String
  lastIndex : Option Int
  step : Option Int
  isLinear : Option Bool
  nbLinear : Option Int
  nbResets : Option Int
  deriving DecidableEq, Repr

/-- Models `PacketStats.is_packet_stats`: a non-empty dict with `nb > 0` and a
non-empty key list. -/
def isPacketStats (nb : Nat) (keys : List String) : Bool :=
  decide (0 < nb) && !keys.isEmpty

/-- Models `PacketStats.is_packet_stats_equal` between a fresh packet
fingerprint and a registered slot. -/
def isPacketStatsEqual (fp : StatFingerprint) (e : StatEntry) : Bool :=
  isPacketStats fp.nb fp.keys && isPacketStats e.nb e.keys
    && fp.nb == e.nb && decide (fp.keys = e.keys)

/-- Models `PacketStats.is_index_linear`:
`Ut.get_int(last_index, default=index) == index`. -/
def isIndexLinear (index : Int) (lastIndex : Option Int) : Bool :=
  lastIndex.getD index == index

/-- Models `PacketStats.count_linear_index`: bump `nb_linear` on a linear
outcome, else reset it to 0 and bump `nb_resets` (absent counters read
as 0). -/
def countLinearIndex (isLinear : Bool) (nbLinear nbResets : Int) :
    Int × Int :=
  if isLinear then (nbLinear + 1, nbResets) else (0, nbResets + 1)

/-- Models `PacketStats.set_packet_stats_from_index`, the update path for a
slot that is already registered: compare the packet's fingerprint and
the index with the stored ones, refresh the linearity counters, and
overwrite the stored fingerprint when the outcome is non-linear. This
path performs no `can_add_stats` test. (`none` only for an empty packet,
whose fingerprint is `None`.) -/
def setPacketStatsFromIndex (index : Int) (e : StatEntry)
    (packet : SPacket) : Option StatEntry :=
  match getStatsFromPacket packet with
  | none => none
  | some fp =>
    let isL := isPacketStatsEqual fp e && isIndexLinear index e.lastIndex
    let counters := countLinearIndex isL (e.nbLinear.getD 0) (e.nbResets.getD 0)
    let base := if isL then e else { e with nb := fp.nb, keys := fp.keys }
    some { base with lastIndex := some index, isLinear := some isL,
                     nbLinear := some counters.1,
                     nbResets := some counters.2 }

/-- A sequence of `add_stats` registrations. -/
def addStatsFold (stats : List StatFingerprint) (packets : List SPacket) :
    List StatFingerprint :=
  packets.foldl (fun st p => (addStats st p).1) stats

/-- Ten distinct one-field packets used to exercise the registry bound. -/
def tenPackets : List SPacket :=
  [[("A", "1")], [("B", "1")], [("C", "1")], [("D", "1")], [("E", "1")],
   [("F", "1")], [("G", "1")], [("H", "1")], [("I", "1")], [("J", "1")]]

/-! ### `VePacketsApp` (`src/vedirect_m8/vepackets_app.py`) -/

/-- Python `int(x)` on a rational: truncation toward zero. This is what
the external helper `ve_utils.UType.get_int` applies to the
`time.time()` floats in `is_time_to_read_serial`. -/
def pyInt (q : ℚ) : Int := if q < 0 then ⌈q⌉ else ⌊q⌋

/-- The cache-related state of `VePacketsApp`: `_data_cache` (an
optional `(timestamp, merged-packet)` pair, timestamps as rationals
standing for wall-clock floats) and `_min_interval` (an integer kept
`≥ 1` by `set_min_interval`). -/
structure VePacketsState where
  dataCache : Option (ℚ × SPacket)
  minInterval : Int
  deriving DecidableEq, Repr

/-- Models `VePacketsApp.has_data_cache`: a tuple with a non-zero numeric
timestamp and a non-empty dict. -/
def hasDataCache (s : VePacketsState) : Bool :=
  match s.dataCache with
  | some (t, d) => decide (t ≠ 0) && !d.isEmpty
  | none => false

/-- Models `VePacketsApp.get_time_cache`. -/
def getTimeCache (s : VePacketsState) : Option ℚ :=
  match s.dataCache with
  | some (t, d) => if t ≠ 0 ∧ d ≠ [] then some t else none
  | none => none

/-- Models `VePacketsApp.get_data_cache`. -/
def getDataCache (s : VePacketsState) : Option SPacket :=
  match s.dataCache with
  | some (t, d) => if t ≠ 0 ∧ d ≠ [] then some d else none
  | none => none

/-- Models `Ut.get_int(self.get_time_cache(), default=-1)`: the truncated cache
timestamp, `-1` when there is no valid cache. -/
def timeCacheInt (s : VePacketsState) : Int :=
  match getTimeCache s with
  | some t => pyInt t
  | none => -1

/-- Models `VePacketsApp.is_time_to_read_serial`: truncate the cache timestamp
(default `-1` when absent), `now` and `min_interval` to integers; when
all three are positive, read from serial iff
`abs(time_cache - now) >= min_interval`; otherwise always read. -/
def isTimeToReadSerial (s : VePacketsState) (now : ℚ) : Bool :=
  if 0 < timeCacheInt s ∧ 0 < pyInt now ∧ 0 < s.minInterval then
    decide (s.minInterval ≤ |timeCacheInt s - pyInt now|)
  else true

/-- Models `VePacketsApp.read_data`: when `is_time_to_read_serial` holds, run
`read_serial_packets` — which resets `_data_cache` and then attempts a
fresh round whose net effect on the cache is abstracted here as
`roundCache` (the value `get_all_packets` leaves in `_data_cache`,
`none` when the round produced nothing) — and return the fresh data
with `is_cache = False`; otherwise return the cached data with
`is_cache = True`. -/
def readData (s : VePacketsState) (now : ℚ)
    (roundCache : Option (ℚ × SPacket)) :
    Option SPacket × Bool × VePacketsState :=
  if isTimeToReadSerial s now then
    let s1 : VePacketsState := { s with dataCache := roundCache }
    (getDataCache s1, false, s1)
  else
    (getDataCache s, true, s)


end VedirectM8

/-! ## Elementary facts about single `input_read` steps -/

namespace VedirectM8

/-- The function `input_read` never touches `max_blocks`. -/
theorem inputRead_maxBlocks {s : VeState} {b : Nat} {t : VeState}
    {r : Option Dict} (h : inputRead s b = .ok (t, r)) :
    t.maxBlocks = s.maxBlocks := by
  unfold inputRead at h
  split at h
  · simp at h
  · split at h
    · simp only [runInHex] at h
      split at h <;> (simp at h; obtain ⟨h1, _⟩ := h; rw [← h1])
    · cases hst : s.state <;> simp only [hst] at h
      · simp only [runInHex] at h
        split at h <;> (simp at h; obtain ⟨h1, _⟩ := h; rw [← h1])
      · simp only [runWaitHeader] at h
        split at h <;> [skip; split at h] <;>
          (simp at h; obtain ⟨h1, _⟩ := h; rw [← h1])
      · cases hk : runInKey s b with
        | error e => rw [hk] at h; simp [Except.map] at h
        | ok t' =>
          rw [hk] at h
          simp [Except.map] at h
          obtain ⟨h1, _⟩ := h
          rw [← h1]
          unfold runInKey at hk
          split at hk <;> [split at hk; split at hk] <;>
            simp at hk <;> rw [← hk]
      · cases hk : runInValue s b with
        | error e => rw [hk] at h; simp [Except.map] at h
        | ok t' =>
          rw [hk] at h
          simp [Except.map] at h
          obtain ⟨h1, _⟩ := h
          rw [← h1]
          unfold runInValue at hk
          split at hk <;> [split at hk; split at hk] <;>
            simp at hk <;> rw [← hk]
      · unfold runInChecksum at h
        split at h <;> simp at h
        obtain ⟨h1, _⟩ := h
        rw [← h1]

/-- A packet is delivered only by `run_in_checksum`: if `input_read`
returns a packet, the decoder was in `IN_CHECKSUM`, the final byte sum
is divisible by 256, and the packet is the accumulated map. -/
theorem inputRead_deliver {s : VeState} {b : Nat} {t : VeState} {p : Dict}
    (h : inputRead s b = .ok (t, some p)) :
    s.state = .inChecksum ∧ (s.bytesSum + b) % 256 = 0 ∧ p = s.dict := by
  unfold inputRead at h
  split at h
  · simp at h
  · split at h
    · simp only [runInHex] at h
      split at h <;> simp at h
    · cases hst : s.state <;> simp only [hst] at h
      · simp only [runInHex] at h
        split at h <;> simp at h
      · simp only [runWaitHeader] at h
        split at h <;> [skip; split at h] <;> simp at h
      · cases hk : runInKey s b with
        | error e => rw [hk] at h; simp [Except.map] at h
        | ok t' => rw [hk] at h; simp [Except.map] at h
      · cases hk : runInValue s b with
        | error e => rw [hk] at h; simp [Except.map] at h
        | ok t' => rw [hk] at h; simp [Except.map] at h
      · unfold runInChecksum at h
        split at h <;> simp at h
        obtain ⟨_, h2⟩ := h
        exact ⟨rfl, by assumption, h2.symm⟩

/-- Away from the `HEX` state and the `HEXMARK` byte, a successful
non-delivering `input_read` step adds the byte to the running sum and
stays away from `HEX`. -/
theorem inputRead_sum_step {s : VeState} {b : Nat} {t : VeState}
    (hhex : s.state ≠ .hex) (hb : b ≠ hexmarker)
    (h : inputRead s b = .ok (t, none)) :
    t.bytesSum = s.bytesSum + b ∧ t.state ≠ .hex := by
  unfold inputRead at h
  split at h
  · simp at h
  · split at h
    · next hc => exact absurd hc.1 hb
    · cases hst : s.state <;> simp only [hst] at h
      · exact absurd hst hhex
      · simp only [runWaitHeader] at h
        split at h <;> [skip; split at h] <;>
          (simp at h; try subst h) <;> simp [hst]
      · cases hk : runInKey s b with
        | error e => rw [hk] at h; simp [Except.map] at h
        | ok t' =>
          rw [hk] at h
          simp only [Except.map] at h
          have ht : t' = t := by simpa using h
          subst ht
          unfold runInKey at hk
          split at hk <;> [split at hk; split at hk] <;>
            (simp at hk; try subst hk) <;> simp [hst]
      · cases hk : runInValue s b with
        | error e => rw [hk] at h; simp [Except.map] at h
        | ok t' =>
          rw [hk] at h
          simp only [Except.map] at h
          have ht : t' = t := by simpa using h
          subst ht
          unfold runInValue at hk
          split at hk <;> [split at hk; split at hk] <;>
            (simp at hk; try subst hk) <;> simp [hst]
      · unfold runInChecksum at h
        split at h <;> simp at h

/-- In `WAIT_HEADER`, `input_read` is total and never delivers: `HEXMARK`
switches to `HEX` (resetting the sum, since the byte is dispatched to
`run_in_hex`), `HEADER2` adds the byte to the sum and moves to `IN_KEY`,
and every other byte (including `HEADER1`) adds the byte to the sum and
stays in `WAIT_HEADER`; key, value and map are never touched. -/
theorem waitHeader_total (s : VeState) (b : Nat)
    (hst : s.state = .waitHeader) :
    inputRead s b =
      .ok ((if b = hexmarker then { s with bytesSum := 0, state := .hex }
            else if b = header2 then
              { s with bytesSum := s.bytesSum + b, state := .inKey }
            else { s with bytesSum := s.bytesSum + b, state := .waitHeader }),
           none) := by
  obtain ⟨mb, k, v, bs, st, d⟩ := s
  simp only at hst
  subst hst
  unfold inputRead isUnexpectedHeader
  by_cases hx : b = hexmarker
  · subst hx
    simp [runInHex, hexmarker, header1, header2]
  · by_cases h2 : b = header2
    · subst h2
      simp [runWaitHeader, hexmarker, header1, header2]
    · by_cases h1 : b = header1
      · subst h1
        simp [runWaitHeader, hexmarker, header1, header2]
      · simp [runWaitHeader, hx, h1, h2]

/-- A `HEXMARK` byte fed in any state other than `IN_CHECKSUM` switches
the decoder to `HEX`, resetting the byte sum (the `HEXMARK` byte itself
is dispatched to `run_in_hex`); key, value and map are untouched. -/
theorem hexmark_enters_hex (s : VeState)
    (hst : s.state ≠ .inChecksum) :
    inputRead s hexmarker =
      .ok ({ s with bytesSum := 0, state := .hex }, none) := by
  obtain ⟨mb, k, v, bs, st, d⟩ := s
  simp only at hst
  unfold inputRead isUnexpectedHeader
  cases st <;> simp_all [runInHex, hexmarker, header1, header2]

/-- Every byte fed in the `HEX` state resets the byte sum to 0 and never
raises; the decoder leaves `HEX` exactly on `HEADER1` (`'\r'`), staying
in `HEX` on every other byte (in particular on `HEADER2`, `'\n'`). -/
theorem hex_state_step (s : VeState) (b : Nat) (hst : s.state = .hex) :
    inputRead s b =
      .ok ((if b = header1 then { s with bytesSum := 0, state := .waitHeader }
            else { s with bytesSum := 0 }), none) := by
  obtain ⟨mb, k, v, bs, st, d⟩ := s
  simp only at hst
  subst hst
  unfold inputRead isUnexpectedHeader
  by_cases hx : b = hexmarker
  · subst hx
    simp [runInHex, hexmarker, header1, header2]
  · by_cases h1 : b = header1
    · subst h1
      simp [runInHex, hexmarker, header1, header2]
    · simp [runInHex, hx, h1]

/-- In `IN_CHECKSUM`, every byte is added to the sum, the key and value
buffers are cleared and the state returns to `WAIT_HEADER`; the map is
delivered as the packet if the new sum is divisible by 256, and
otherwise `PacketReadException` carries `bytes_sum % 256` and the map. -/
theorem inChecksum_step (s : VeState) (b : Nat)
    (hst : s.state = .inChecksum) :
    inputRead s b =
      if (s.bytesSum + b) % 256 = 0 then
        .ok ({ s with bytesSum := 0, key := [], value := [],
                      state := .waitHeader }, some s.dict)
      else .error (.checksumMismatch ((s.bytesSum + b) % 256) s.dict) := by
  obtain ⟨mb, k, v, bs, st, d⟩ := s
  simp only at hst
  subst hst
  unfold inputRead isUnexpectedHeader runInChecksum
  simp

/-- Over a `HEXMARK`-free byte list, a frame acceptance forces the total
byte sum (plus whatever sum the decoder started with) to be divisible by
256: the only delivery site is `run_in_checksum`, and away from `HEX`
every byte is added to the running sum. -/
theorem runFrame_sum (bs : List Nat) :
    ∀ (s t : VeState) (p : Dict), s.state ≠ .hex → hexmarker ∉ bs →
      runFrame s bs = some (t, p) → (s.bytesSum + bs.sum) % 256 = 0 := by
  induction bs with
  | nil => intro s t p _ _ h; simp [runFrame] at h
  | cons b bs ih =>
    intro s t p hhex hmem h
    cases bs with
    | nil =>
      simp only [runFrame] at h
      cases hr : inputRead s b with
      | error e => rw [hr] at h; simp at h
      | ok x =>
        obtain ⟨t', r⟩ := x
        cases r with
        | none => rw [hr] at h; simp at h
        | some p' =>
          obtain ⟨_, hsum, _⟩ := inputRead_deliver hr
          simpa using hsum
    | cons b' bs' =>
      simp only [runFrame] at h
      cases hr : inputRead s b with
      | error e => rw [hr] at h; simp at h
      | ok x =>
        obtain ⟨t', r⟩ := x
        cases r with
        | some p' => rw [hr] at h; simp at h
        | none =>
          rw [hr] at h
          simp only at h
          have hb : b ≠ hexmarker := fun hb => hmem (hb ▸ List.mem_cons_self b _)
          obtain ⟨hsum, hhex'⟩ := inputRead_sum_step hhex hb hr
          have hmem' : hexmarker ∉ b' :: bs' :=
            fun hm => hmem (List.mem_cons_of_mem _ hm)
          have := ih t' t p hhex' hmem' h
          rw [hsum] at this
          rw [show s.bytesSum + (b :: b' :: bs').sum
                = s.bytesSum + b + (b' :: bs').sum by
              simp [List.sum_cons]; ring]
          exact this

/-- The update `dictSet` grows the map by at most one entry. -/
theorem dictSet_length (d : Dict) (k v : List Nat) :
    (dictSet d k v).length ≤ d.length + 1 := by
  unfold dictSet
  split
  · simp
  · simp

/-- Every key of `dictSet d k v` is `k` or a key of `d`. -/
theorem dictSet_keys {d : Dict} {k v : List Nat} {kv : List Nat × List Nat}
    (h : kv ∈ dictSet d k v) : kv.1 = k ∨ kv ∈ d := by
  unfold dictSet at h
  split at h
  · obtain ⟨x, hx, hfx⟩ := List.mem_map.mp h
    by_cases hk : x.1 = k
    · rw [if_pos hk] at hfx
      left
      rw [← hfx]
    · rw [if_neg hk] at hfx
      right
      rw [← hfx]
      exact hx
  · rcases List.mem_append.mp h with h | h
    · right
      exact h
    · left
      have := List.mem_singleton.mp h
      rw [this]

/-- A successful `input_read` step preserves the `NoChecksumKey`
invariant. -/
theorem inputRead_noChk {s : VeState} {b : Nat} {t : VeState}
    {r : Option Dict} (h : inputRead s b = .ok (t, r))
    (hs : NoChecksumKey s) : NoChecksumKey t := by
  obtain ⟨hd, hk⟩ := hs
  unfold inputRead at h
  split at h
  · simp at h
  · split at h
    · simp only [Except.ok.injEq, Prod.mk.injEq] at h
      obtain ⟨h1, _⟩ := h
      subst h1
      unfold runInHex
      split <;> exact ⟨hd, by simp⟩
    · cases hst : s.state <;> simp only [hst] at h
      · simp only [Except.ok.injEq, Prod.mk.injEq] at h
        obtain ⟨h1, _⟩ := h
        subst h1
        unfold runInHex
        split
        · exact ⟨hd, by simp⟩
        · exact ⟨hd, by simp [hst]⟩
      · simp only [runWaitHeader] at h
        split at h
        · simp only [Except.ok.injEq, Prod.mk.injEq] at h
          obtain ⟨h1, _⟩ := h
          subst h1
          exact ⟨hd, by simp⟩
        · split at h
          · simp only [Except.ok.injEq, Prod.mk.injEq] at h
            obtain ⟨h1, _⟩ := h
            subst h1
            exact ⟨hd, by simp⟩
          · simp only [Except.ok.injEq, Prod.mk.injEq] at h
            obtain ⟨h1, _⟩ := h
            subst h1
            exact ⟨hd, by simp [hst]⟩
      · cases hkk : runInKey s b with
        | error e => rw [hkk] at h; simp [Except.map] at h
        | ok t' =>
          rw [hkk] at h
          simp only [Except.map, Except.ok.injEq, Prod.mk.injEq] at h
          obtain ⟨h1, _⟩ := h
          subst h1
          unfold runInKey at hkk
          split at hkk
          · split at hkk
            · simp only [Except.ok.injEq] at hkk
              subst hkk
              exact ⟨hd, by simp⟩
            · rename_i hkey
              simp only [Except.ok.injEq] at hkk
              subst hkk
              exact ⟨hd, fun _ => hkey⟩
          · split at hkk
            · simp only [Except.ok.injEq] at hkk
              subst hkk
              exact ⟨hd, by simp [hst]⟩
            · simp at hkk
      · cases hkk : runInValue s b with
        | error e => rw [hkk] at h; simp [Except.map] at h
        | ok t' =>
          rw [hkk] at h
          simp only [Except.map, Except.ok.injEq, Prod.mk.injEq] at h
          obtain ⟨h1, _⟩ := h
          subst h1
          unfold runInValue at hkk
          split at hkk
          · split at hkk
            · simp at hkk
            · simp only [Except.ok.injEq] at hkk
              subst hkk
              refine ⟨?_, by simp⟩
              intro kv hkv
              rcases dictSet_keys hkv with hkey | hkey
              · rw [hkey]
                exact hk hst
              · exact hd kv hkey
          · split at hkk
            · simp only [Except.ok.injEq] at hkk
              subst hkk
              exact ⟨hd, fun _ => hk hst⟩
            · simp at hkk
      · unfold runInChecksum at h
        split at h
        · simp only [Except.ok.injEq, Prod.mk.injEq] at h
          obtain ⟨h1, _⟩ := h
          subst h1
          exact ⟨hd, by simp⟩
        · simp at h

/-- A successful `input_read` step preserves the `BlockBound`
invariant. -/
theorem inputRead_blockBound {s : VeState} {b : Nat} {t : VeState}
    {r : Option Dict} (h : inputRead s b = .ok (t, r))
    (hs : BlockBound s) : BlockBound t := by
  unfold inputRead at h
  split at h
  · simp at h
  · split at h
    · simp only [Except.ok.injEq, Prod.mk.injEq] at h
      obtain ⟨h1, _⟩ := h
      subst h1
      unfold runInHex
      split <;> exact hs
    · cases hst : s.state <;> simp only [hst] at h
      · simp only [Except.ok.injEq, Prod.mk.injEq] at h
        obtain ⟨h1, _⟩ := h
        subst h1
        unfold runInHex
        split <;> exact hs
      · simp only [runWaitHeader] at h
        split at h
        · simp only [Except.ok.injEq, Prod.mk.injEq] at h
          obtain ⟨h1, _⟩ := h
          subst h1
          exact hs
        · split at h <;>
            (simp only [Except.ok.injEq, Prod.mk.injEq] at h;
             obtain ⟨h1, _⟩ := h; subst h1; exact hs)
      · cases hkk : runInKey s b with
        | error e => rw [hkk] at h; simp [Except.map] at h
        | ok t' =>
          rw [hkk] at h
          simp only [Except.map, Except.ok.injEq, Prod.mk.injEq] at h
          obtain ⟨h1, _⟩ := h
          subst h1
          unfold runInKey at hkk
          split at hkk
          · split at hkk <;>
              (simp only [Except.ok.injEq] at hkk; subst hkk; exact hs)
          · split at hkk
            · simp only [Except.ok.injEq] at hkk
              subst hkk
              exact hs
            · simp at hkk
      · cases hkk : runInValue s b with
        | error e => rw [hkk] at h; simp [Except.map] at h
        | ok t' =>
          rw [hkk] at h
          simp only [Except.map, Except.ok.injEq, Prod.mk.injEq] at h
          obtain ⟨h1, _⟩ := h
          subst h1
          unfold runInValue at hkk
          split at hkk
          · split at hkk
            · simp at hkk
            · rename_i hfree
              simp only [Except.ok.injEq] at hkk
              subst hkk
              intro k hkmax
              change s.maxBlocks = some k at hkmax
              have hfree' : hasFreeBlock s = true := by
                revert hfree
                cases hasFreeBlock s <;> simp
              have hlen : s.dict.length ≤ k := by
                unfold hasFreeBlock at hfree'
                rw [hkmax] at hfree'
                simpa using hfree'
              show (dictSet s.dict s.key s.value).length ≤ k + 1
              calc (dictSet s.dict s.key s.value).length
                  ≤ s.dict.length + 1 := dictSet_length _ _ _
                _ ≤ k + 1 := by omega
          · split at hkk
            · simp only [Except.ok.injEq] at hkk
              subst hkk
              exact hs
            · simp at hkk
      · unfold runInChecksum at h
        split at h
        · simp only [Except.ok.injEq, Prod.mk.injEq] at h
          obtain ⟨h1, _⟩ := h
          subst h1
          exact hs
        · simp at h

/-- The runner `feedOk` preserves the `NoChecksumKey` invariant. -/
theorem feedOk_noChk (bs : List Nat) :
    ∀ s t : VeState, NoChecksumKey s → feedOk s bs = some t →
      NoChecksumKey t := by
  induction bs with
  | nil =>
    intro s t hs h
    simp only [feedOk, Option.some.injEq] at h
    rw [← h]
    exact hs
  | cons b bs ih =>
    intro s t hs h
    simp only [feedOk] at h
    cases hr : inputRead s b with
    | error e => rw [hr] at h; simp at h
    | ok x =>
      obtain ⟨s', r⟩ := x
      rw [hr] at h
      exact ih s' t (inputRead_noChk hr hs) h

/-- Any packet delivered by a frame run from a `BlockBound` state has at
most `max_blocks + 1` fields. -/
theorem runFrame_blockBound (bs : List Nat) :
    ∀ (s t : VeState) (p : Dict) (k : Nat), BlockBound s →
      s.maxBlocks = some k → runFrame s bs = some (t, p) →
      p.length ≤ k + 1 := by
  induction bs with
  | nil =>
    intro s t p k _ _ h
    simp [runFrame] at h
  | cons b bs ih =>
    intro s t p k hs hmax h
    cases bs with
    | nil =>
      simp only [runFrame] at h
      cases hr : inputRead s b with
      | error e => rw [hr] at h; simp at h
      | ok x =>
        obtain ⟨t', r⟩ := x
        cases r with
        | none => rw [hr] at h; simp at h
        | some p' =>
          rw [hr] at h
          simp only [Option.some.injEq, Prod.mk.injEq] at h
          obtain ⟨_, hp⟩ := h
          obtain ⟨_, _, hpd⟩ := inputRead_deliver hr
          rw [← hp, hpd]
          exact hs k hmax
    | cons b' bs' =>
      simp only [runFrame] at h
      cases hr : inputRead s b with
      | error e => rw [hr] at h; simp at h
      | ok x =>
        obtain ⟨t', r⟩ := x
        cases r with
        | some p' => rw [hr] at h; simp at h
        | none =>
          rw [hr] at h
          simp only at h
          exact ih t' t p k (inputRead_blockBound hr hs)
            ((inputRead_maxBlocks hr).trans hmax) h

/-! ## Claims about the byte decoder -/

/-- Claim C1, counterexample to the checksum-closure half: the sequence
`:Q\r\nChecksum\t<186>` is accepted as a frame (delivering an empty
packet and leaving the decoder reset), yet the arithmetic sum of its
bytes is `1176 ≡ 152 ≠ 0 (mod 256)` — the bytes of the hex segment are
zeroed out of the running sum rather than summed. -/
theorem claim_C1_counterexample :
    runFrame (initState (some 18)) hexPrefixedFrame
      = some (initState (some 18), ([] : Dict))
    ∧ hexPrefixedFrame.sum % 256 ≠ 0 := by decide

/-- Claim C1 (amended): in `IN_CHECKSUM` every fed byte is added to the
running sum and the accumulated map is returned as a completed packet
exactly when the resulting sum is `0 (mod 256)`, a mismatch raising
`PacketReadException` carrying `sum mod 256` and the current map; and
for every `HEXMARK`-free byte sequence accepted as a frame from a fresh
decoder, the arithmetic sum of its bytes is `0 (mod 256)` (sequences
that pass through the `HEX` state escape the closure because `run_in_hex`
resets the running sum). -/
theorem claim_C1 :
    (∀ (s : VeState) (b : Nat), s.state = .inChecksum →
      inputRead s b =
        if (s.bytesSum + b) % 256 = 0 then
          .ok ({ s with bytesSum := 0, key := [], value := [],
                        state := .waitHeader }, some s.dict)
        else .error (.checksumMismatch ((s.bytesSum + b) % 256) s.dict))
    ∧ (∀ (mb : Option Nat) (bs : List Nat) (t : VeState) (p : Dict),
        hexmarker ∉ bs → runFrame (initState mb) bs = some (t, p) →
        bs.sum % 256 = 0) := by
  constructor
  · exact inChecksum_step
  · intro mb bs t p hmem h
    have hsum := runFrame_sum bs (initState mb) t p (by simp [initState]) hmem h
    simpa [initState] using hsum

/-- Witness for C1: the checksum step at a concrete `IN_CHECKSUM` state,
and the checksum closure on the concrete frame `\r\nA\t1\r\nChecksum\t<27>`. -/
theorem claim_C1_witness :
    inputRead ⟨some 18, [], [], 997, .inChecksum, [([65], [49])]⟩ 27
      = .ok (⟨some 18, [], [], 0, .waitHeader, [([65], [49])]⟩,
             some [([65], [49])])
    ∧ frameOneField.sum % 256 = 0 := by
  constructor
  · have h := claim_C1.1 ⟨some 18, [], [], 997, .inChecksum, [([65], [49])]⟩
      27 rfl
    simpa using h
  · exact claim_C1.2 (some 18) frameOneField
      ⟨some 18, [], [], 0, .waitHeader, [([65], [49])]⟩ [([65], [49])]
      (by decide) (by decide)

/-- Claim C2, counterexample: with `max_blocks_per_packet = 1` the frame
`\r\nA\t1\r\nB\t2\r\nChecksum\t<135>` is accepted and the returned
packet has 2 fields — `has_free_block` tests `len(dict) <= max_blocks`
before the insertion, so one extra field slips in. -/
theorem claim_C2_counterexample :
    runFrame (initState (some 1)) frameTwoFields
      = some (⟨some 1, [], [], 0, .waitHeader, [([65], [49]), ([66], [50])]⟩,
              [([65], [49]), ([66], [50])])
    ∧ ¬ ([([65], [49]), ([66], [50])] : Dict).length ≤ 1 := by decide

/-- Claim C2 (amended): with `max_blocks_per_packet = k` no packet
returned by the decoder has more than `k + 1` fields, and a block commit
attempted while the map already holds more than `k` entries raises
`PacketReadException` carrying the map; the map itself is cleared by the
enclosing read loop's `reset_data_read` — which restores exactly the
fresh decoder state — not at the raise site. -/
theorem claim_C2 :
    (∀ (k : Nat) (bs : List Nat) (t : VeState) (p : Dict),
        runFrame (initState (some k)) bs = some (t, p) →
        p.length ≤ k + 1)
    ∧ (∀ (s : VeState) (k : Nat), s.state = .inValue →
        s.maxBlocks = some k → k < s.dict.length →
        inputRead s header1 = .error (.maxBlocks s.dict))
    ∧ (∀ s : VeState, resetDataRead s = initState s.maxBlocks) := by
  refine ⟨?_, ?_, fun s => rfl⟩
  · intro k bs t p h
    refine runFrame_blockBound bs (initState (some k)) t p k ?_ rfl h
    intro k' _
    simp [initState]
  · intro s k hst hmax hlen
    obtain ⟨mb, ky, v, bsum, st, d⟩ := s
    simp only at hst hmax hlen
    subst hst
    subst hmax
    unfold inputRead isUnexpectedHeader runInValue hasFreeBlock
    simp [header1, header2, hexmarker, Except.map, Nat.not_le.mpr hlen,
      Nat.lt_irrefl]

/-- Witness for C2: the one-field frame under the default limit 18
delivers a packet within the bound, and a concrete overfull `IN_VALUE`
state raises on the commit byte. -/
theorem claim_C2_witness :
    ([([65], [49])] : Dict).length ≤ 18 + 1
    ∧ inputRead ⟨some 1, [66], [50], 300, .inValue,
          [([65], [49]), ([67], [51])]⟩ header1
        = .error (.maxBlocks [([65], [49]), ([67], [51])]) := by
  constructor
  · exact claim_C2.1 18 frameOneField
      ⟨some 18, [], [], 0, .waitHeader, [([65], [49])]⟩ [([65], [49])]
      (by decide)
  · exact claim_C2.2.1 ⟨some 1, [66], [50], 300, .inValue,
      [([65], [49]), ([67], [51])]⟩ 1 rfl rfl (by decide)

/-- Claim C4, counterexample: after `HEXMARK` followed by `HEADER2`
(`'\n'`) the decoder is still in `Hex`, not back in `WaitHeader` — the
hex state is left on `HEADER1` (`'\r'`), not on `HEADER2`. -/
theorem claim_C4_counterexample :
    feedOk (initState (some 18)) [hexmarker, header2]
      = some ⟨some 18, [], [], 0, .hex, []⟩
    ∧ RState.hex ≠ RState.waitHeader := by decide

/-- Claim C4 (amended): a `HEXMARK` byte fed outside `InChecksum` puts
the decoder in `Hex` (the marker byte itself being handled by
`run_in_hex`); every byte fed in `Hex` resets the running sum to 0 and
never raises, and the decoder returns to `WaitHeader` exactly on the
next `HEADER1` byte (`0x0D`, `'\r'`), not on `HEADER2`. -/
theorem claim_C4 :
    (∀ s : VeState, s.state ≠ .inChecksum →
      inputRead s hexmarker =
        .ok ({ s with bytesSum := 0, state := .hex }, none))
    ∧ (∀ (s : VeState) (b : Nat), s.state = .hex →
      inputRead s b =
        .ok ((if b = header1
              then { s with bytesSum := 0, state := .waitHeader }
              else { s with bytesSum := 0 }), none)) :=
  ⟨hexmark_enters_hex, hex_state_step⟩

/-- Witness for C4: entering `Hex` from the fresh state and leaving it
on `HEADER1`. -/
theorem claim_C4_witness :
    inputRead (initState (some 18)) hexmarker
      = .ok (⟨some 18, [], [], 0, .hex, []⟩, none)
    ∧ inputRead ⟨some 18, [], [], 0, .hex, []⟩ header1
      = .ok (⟨some 18, [], [], 0, .waitHeader, []⟩, none) := by
  constructor
  · have h := claim_C4.1 (initState (some 18)) (by simp [initState])
    simpa [initState] using h
  · have h := claim_C4.2 ⟨some 18, [], [], 0, .hex, []⟩ header1 rfl
    simpa using h

/-- Claim C5, counterexample: right after the `input_read` call that
returns the packet of `\r\nA\t1\r\nChecksum\t<27>`, the helper state
still holds the accumulated map (`dict = {A: 1}`), so the per-byte feed
operation does not leave the decoder at
`(WaitHeader, key="", value="", sum=0, map={})`; the full reset is
performed by the surrounding read loop. -/
theorem claim_C5_counterexample :
    runFrame (initState (some 18)) frameOneField
      = some (⟨some 18, [], [], 0, .waitHeader, [([65], [49])]⟩,
              [([65], [49])])
    ∧ (⟨some 18, [], [], 0, .waitHeader, [([65], [49])]⟩ : VeState)
        ≠ initState (some 18) := by decide

/-- Claim C5 (amended): after any `read_data_single` loop iteration that
delivers a packet or catches a raised error, the handler's
`reset_data_read` leaves the decoder at exactly
`(WaitHeader, key="", value="", sum=0, map={})` (with `max_blocks`
preserved) before control leaves the iteration. -/
theorem claim_C5 :
    ∀ (s : VeState) (b : Nat) (t : VeState),
      readSingleIteration s b = some t → t = initState s.maxBlocks := by
  intro s b t h
  unfold readSingleIteration at h
  cases hr : inputRead s b with
  | error e =>
    rw [hr] at h
    simp only [Option.some.injEq] at h
    rw [← h]
    rfl
  | ok x =>
    obtain ⟨t', r⟩ := x
    cases r with
    | none => rw [hr] at h; simp at h
    | some p =>
      rw [hr] at h
      simp only [Option.some.injEq] at h
      rw [← h]
      have hmb := inputRead_maxBlocks hr
      show resetDataRead t' = initState s.maxBlocks
      rw [← hmb]
      rfl

/-- Witness for C5: the delivering iteration on the concrete checksum
byte resets the decoder. -/
theorem claim_C5_witness :
    (⟨some 18, [], [], 0, .waitHeader, []⟩ : VeState)
      = initState (some 18) :=
  claim_C5 ⟨some 18, [], [], 997, .inChecksum, [([65], [49])]⟩ 27
    ⟨some 18, [], [], 0, .waitHeader, []⟩ (by decide)

/-- Claim C6: no packet delivered by the decoder contains the key
`"Checksum"` — on TAB with accumulated key `"Checksum"` the decoder
moves to `InChecksum` without committing the pseudo-field, and the
delivered map only ever receives keys different from `"Checksum"`. -/
theorem claim_C6 :
    (∀ (mb : Option Nat) (bs : List Nat) (s t : VeState) (b : Nat)
        (p : Dict),
      feedOk (initState mb) bs = some s →
      inputRead s b = .ok (t, some p) →
      ∀ kv ∈ p, kv.1 ≠ checksumKey)
    ∧ (∀ s : VeState, s.state = .inKey → s.key = checksumKey →
      inputRead s delimiter =
        .ok ({ s with bytesSum := s.bytesSum + delimiter,
                      state := .inChecksum }, none)) := by
  constructor
  · intro mb bs s t b p hfeed hdel kv hkv
    have hinv : NoChecksumKey s :=
      feedOk_noChk bs (initState mb) s
        ⟨by simp [initState], by simp [initState]⟩ hfeed
    obtain ⟨_, _, hpd⟩ := inputRead_deliver hdel
    exact hinv.1 kv (hpd ▸ hkv)
  · intro s hst hkey
    obtain ⟨mb, ky, v, bsum, st, d⟩ := s
    simp only at hst hkey
    subst hst
    subst hkey
    unfold inputRead isUnexpectedHeader runInKey
    simp [header1, header2, hexmarker, delimiter, Except.map]

/-- Witness for C6: the packet delivered by `\r\nA\t1\r\nChecksum\t<27>`
has no `"Checksum"` key, and the TAB transition at a concrete state with
key `"Checksum"` enters `InChecksum` without committing. -/
theorem claim_C6_witness :
    (∀ kv ∈ ([([65], [49])] : Dict), kv.1 ≠ checksumKey)
    ∧ inputRead ⟨some 18, checksumKey, [], 988, .inKey, [([65], [49])]⟩
        delimiter
      = .ok ({ (⟨some 18, checksumKey, [], 988, .inKey,
                [([65], [49])]⟩ : VeState) with
                bytesSum := 988 + delimiter, state := .inChecksum }, none) := by
  constructor
  · exact claim_C6.1 (some 18) frameOneField.dropLast
      ⟨some 18, checksumKey, [], 997, .inChecksum, [([65], [49])]⟩
      ⟨some 18, [], [], 0, .waitHeader, [([65], [49])]⟩ 27 [([65], [49])]
      (by decide) (by decide)
  · exact claim_C6.2 ⟨some 18, checksumKey, [], 988, .inKey,
      [([65], [49])]⟩ rfl rfl

/-- Claim C10: in `WaitHeader` the per-byte feed is total — for every
byte value (including `0x00` and non-ASCII bytes) it never raises and
never delivers; `HEXMARK` moves to `Hex`, `HEADER2` moves to `InKey`
adding the byte to the sum, and `HEADER1` and every other byte add the
byte to the sum and stay in `WaitHeader`; key, value and map are
untouched in all cases. -/
theorem claim_C10 (s : VeState) (b : Nat) (hst : s.state = .waitHeader) :
    inputRead s b =
      .ok ((if b = hexmarker then { s with bytesSum := 0, state := .hex }
            else if b = header2 then
              { s with bytesSum := s.bytesSum + b, state := .inKey }
            else { s with bytesSum := s.bytesSum + b, state := .waitHeader }),
           none) :=
  waitHeader_total s b hst

/-- Witness for C10: the null byte and a non-ASCII byte fed in
`WaitHeader` are consumed quietly. -/
theorem claim_C10_witness :
    inputRead (initState (some 18)) 0
      = .ok (⟨some 18, [], [], 0, .waitHeader, []⟩, none)
    ∧ inputRead (initState (some 18)) 200
      = .ok (⟨some 18, [], [], 200, .waitHeader, []⟩, none) := by
  constructor
  · have h := claim_C10 (initState (some 18)) 0 rfl
    simpa [initState, hexmarker, header1, header2] using h
  · have h := claim_C10 (initState (some 18)) 200 rfl
    simpa [initState, hexmarker, header1, header2] using h

/-! ## Claim about the read-loop error budgets -/

/-- Claim C3 (code bug): `VedirectTools.is_max_read_error` tells the
`read_data_single` handlers to re-raise whenever it returns `True`. The
code returns `True` for `max_value == 0` and whenever
`0 <= counter <= max_value` with `max_value > 0`, so a strictly positive
budget still re-raises the very first error (counter 0): with budget 5
and no prior errors it returns `True`, where the documented semantics
("-1 never exit, 0 exit on first error, x exit after x errors") demand
`False` until five errors have occurred. Only `-1` never exits. -/
theorem claim_C3_code_bug :
    isMaxReadError 5 0 = true
    ∧ isMaxReadError 1 0 = true
    ∧ isMaxReadError 0 0 = true
    ∧ isMaxReadError (-1) 0 = false
    ∧ isMaxReadError (-1) 1000000 = false := by decide

/-! ## Claim about the packet-statistics registry -/

/-- Claim C9, counterexample: registering ten distinct one-field packets
from an empty registry leaves only 9 fingerprints, and the next
`add_stats` attempt returns `False` without adding — although the
claimed maximum of 20 slots is nowhere near reached
(`can_add_stats` is `len(stats) + 1 < MAX_STAT_PACKETS` with
`MAX_STAT_PACKETS = 10`). -/
theorem claim_C9_counterexample :
    (addStatsFold [] tenPackets).length = 9
    ∧ (addStats (addStatsFold [] tenPackets) [("K", "1")]).2 = false
    ∧ (addStats (addStatsFold [] tenPackets) [("K", "1")]).1
        = addStatsFold [] tenPackets
    ∧ 9 + 1 ≤ 20 := by decide

/-- Claim C9 (amended): the registry holds at most 9 per-slot
fingerprints (`MAX_STAT_PACKETS = 10` with the strict test
`len + 1 < 10`): one `add_stats` call grows the registry by at most one
entry and never beyond 9, a call on a registry already holding 9 or more
entries returns `False` leaving it unchanged (no exception), any
registration sequence from an empty registry stays within 9 slots, and
the update path for an already-registered slot
(`set_packet_stats_from_index`) always updates, with no capacity
test. -/
theorem claim_C9 :
    (∀ (stats : List StatFingerprint) (packet : SPacket),
        (addStats stats packet).1.length ≤ max stats.length 9)
    ∧ (∀ (stats : List StatFingerprint) (packet : SPacket),
        9 ≤ stats.length → addStats stats packet = (stats, false))
    ∧ (∀ packets : List SPacket, (addStatsFold [] packets).length ≤ 9)
    ∧ (∀ (index : Int) (e : StatEntry) (packet : SPacket), packet ≠ [] →
        (setPacketStatsFromIndex index e packet).isSome = true) := by
  refine ⟨?_, ?_, ?_, ?_⟩
  · intro stats packet
    unfold addStats
    cases h : getStatsFromPacket packet
    · simp
    · simp only
      split
      · next hcan =>
        unfold canAddStats MAX_STAT_PACKETS at hcan
        simp only [decide_eq_true_eq] at hcan
        simp only [List.length_append, List.length_singleton]
        omega
      · simp
  · intro stats packet hlen
    unfold addStats
    cases h : getStatsFromPacket packet
    · simp
    · simp only
      rw [if_neg]
      unfold canAddStats MAX_STAT_PACKETS
      simp only [decide_eq_true_eq]
      omega
  · intro packets
    suffices hgen : ∀ (ps : List SPacket) (stats : List StatFingerprint),
        stats.length ≤ 9 → (addStatsFold stats ps).length ≤ 9 by
      exact hgen packets [] (by simp)
    intro ps
    induction ps with
    | nil =>
      intro stats hs
      simpa [addStatsFold] using hs
    | cons p ps ih =>
      intro stats hs
      have hstep : (addStats stats p).1.length ≤ 9 := by
        unfold addStats
        cases h : getStatsFromPacket p
        · simpa using hs
        · simp only
          split
          · next hcan =>
            unfold canAddStats MAX_STAT_PACKETS at hcan
            simp only [decide_eq_true_eq] at hcan
            simp only [List.length_append, List.length_singleton]
            omega
          · simpa using hs
      have : addStatsFold stats (p :: ps) = addStatsFold (addStats stats p).1 ps := by
        simp [addStatsFold]
      rw [this]
      exact ih (addStats stats p).1 hstep
  · intro index e packet hne
    unfold setPacketStatsFromIndex getStatsFromPacket
    cases packet with
    | nil => exact absurd rfl hne
    | cons a as => simp

/-- Witness for C9: a concrete over-full registry refuses a new
fingerprint, and a concrete fold stays within the bound. -/
theorem claim_C9_witness :
    addStats (addStatsFold [] tenPackets) [("K", "1")]
      = (addStatsFold [] tenPackets, false)
    ∧ (addStatsFold [] tenPackets).length ≤ 9
    ∧ (setPacketStatsFromIndex 0 ⟨1, ["A"], none, none, none, none, none⟩
        [("A", "1")]).isSome = true := by
  refine ⟨?_, ?_, ?_⟩
  · exact claim_C9.2.1 (addStatsFold [] tenPackets) [("K", "1")] (by decide)
  · exact claim_C9.2.2.1 tenPackets
  · exact claim_C9.2.2.2 0 ⟨1, ["A"], none, none, none, none, none⟩
      [("A", "1")] (by decide)
/-! ## Claim about the identity tester -/

/-- A successful `run_value_test` is exactly a lookup hit with the
expected string. -/
theorem runValueTest_iff (k v : String) (data : SPacket)
    (hw : isSerialKeyPattern k = true) :
    runValueTest (.value k v) data = true ↔ spLookup data k = some v := by
  constructor
  · intro h
    simp only [runValueTest] at h
    split at h
    · simpa using h
    · cases h
  · intro h
    have hkmem : spHasKey data k = true := by
      unfold spLookup at h
      cases hf : data.find? (fun kv => kv.1 == k) with
      | none => rw [hf] at h; simp at h
      | some kv =>
        have hpred := List.find?_some hf
        have hmem := List.mem_of_find?_eq_some hf
        exact List.any_eq_true.mpr ⟨kv, hmem, hpred⟩
    cases data with
    | nil => simp [spHasKey] at hkmem
    | cons a as =>
      simp [runValueTest, isValueTest, hw, hkmem, h]

/-- A successful `run_columns_test` is exactly presence of every listed
key. -/
theorem runColumnsTest_iff (ks : List String) (data : SPacket)
    (hw : !ks.isEmpty = true) :
    runColumnsTest (.columns ks) data = true ↔
      ∀ key ∈ ks, spHasKey data key = true := by
  constructor
  · intro h
    simp only [runColumnsTest, Bool.and_eq_true] at h
    exact fun key hkey => (List.all_eq_true.mp h.2) key hkey
  · intro h
    cases hks : ks with
    | nil => rw [hks] at hw; simp at hw
    | cons k0 rest =>
      subst hks
      have hk0 := h k0 (List.mem_cons_self _ _)
      cases data with
      | nil => simp [spHasKey] at hk0
      | cons a as =>
        have hall : (k0 :: rest).all (spHasKey (a :: as)) = true :=
          List.all_eq_true.mpr h
        simp [runColumnsTest, isColumnsListTest, hall]

/-- Claim C8: for every validated identity-test spec (each sub-test
well-formed) and every packet, `run_serial_tests` returns `True` iff the
packet satisfies every sub-test — a value sub-test requiring the packet
to map its key to exactly the expected string, a columns sub-test
requiring every listed key to be present; missing keys just make the
relevant sub-test (and hence the run) `False`, never an error, the
functions being total. -/
theorem claim_C8 (tests : List SubTest) (data : SPacket)
    (hne : tests ≠ [])
    (hwf : ∀ t ∈ tests, wellFormedSubTest t = true) :
    runSerialTests tests data = true ↔
      ∀ t ∈ tests, satisfiesSubTest data t := by
  unfold runSerialTests
  rw [if_neg (by simpa using hne)]
  rw [List.all_eq_true]
  constructor
  · intro h t ht
    have hrun := h t ht
    have hw := hwf t ht
    cases t with
    | value k v =>
      have := (runValueTest_iff k v data
        (by simpa [wellFormedSubTest] using hw)).mp hrun
      simpa [satisfiesSubTest] using this
    | columns ks =>
      have := (runColumnsTest_iff ks data
        (by simpa [wellFormedSubTest] using hw)).mp hrun
      simpa [satisfiesSubTest] using this
  · intro h t ht
    have hsat := h t ht
    have hw := hwf t ht
    cases t with
    | value k v =>
      exact (runValueTest_iff k v data
        (by simpa [wellFormedSubTest] using hw)).mpr
        (by simpa [satisfiesSubTest] using hsat)
    | columns ks =>
      exact (runColumnsTest_iff ks data
        (by simpa [wellFormedSubTest] using hw)).mpr
        (by simpa [satisfiesSubTest] using hsat)

/-- Witness for C8: a two-sub-test spec against a packet with the
expected `PID` value and the `V` column present, and the same spec
rejecting (returning `False`, not raising) a packet missing `V`. -/
theorem claim_C8_witness :
    runSerialTests [.value "PID" "0x203", .columns ["V"]]
        [("PID", "0x203"), ("V", "12800")] = true
    ∧ runSerialTests [.value "PID" "0x203", .columns ["V"]]
        [("PID", "0x203")] = false := by
  constructor
  · exact (claim_C8 [.value "PID" "0x203", .columns ["V"]]
      [("PID", "0x203"), ("V", "12800")] (by decide) (by decide)).mpr
      (by decide)
  · decide

/-! ## Claim about the aggregator cache -/

/-- Claim C7: `read_data` returns `from_cache = True` only when a cached
snapshot exists (non-empty merged map, positive timestamp) and the
wall-clock difference `now - cache.timestamp` is strictly below
`min_interval` (the integer-truncated comparison of
`is_time_to_read_serial` implies the real-valued bound when the
timestamps are coherent, `0 < timestamp ≤ now` and `min_interval ≥ 1`);
and whenever the freshness condition fails — no cached snapshot, or the
cache is `min_interval` old or older — the cache is invalidated, a fresh
round is attempted (the cache afterwards holds exactly what the round
produced) and `from_cache = False` is returned. -/
theorem claim_C7 :
    (∀ (t : ℚ) (d : SPacket) (mi : Int) (now : ℚ)
        (rc : Option (ℚ × SPacket)),
        0 < t → t ≤ now → 1 ≤ mi →
        (readData ⟨some (t, d), mi⟩ now rc).2.1 = true →
        d ≠ [] ∧ now - t < (mi : ℚ))
    ∧ (∀ (mi : Int) (now : ℚ) (rc : Option (ℚ × SPacket)),
        (readData ⟨none, mi⟩ now rc).2.1 = false
          ∧ (readData ⟨none, mi⟩ now rc).2.2.dataCache = rc)
    ∧ (∀ (t : ℚ) (d : SPacket) (mi : Int) (now : ℚ)
        (rc : Option (ℚ × SPacket)),
        0 < t → 1 ≤ mi → (mi : ℚ) ≤ now - t →
        (readData ⟨some (t, d), mi⟩ now rc).2.1 = false
          ∧ (readData ⟨some (t, d), mi⟩ now rc).2.2.dataCache = rc) := by
  refine ⟨?_, ?_, ?_⟩
  · intro t d mi now rc ht htn hmi h
    unfold readData at h
    split at h
    · simp at h
    · next hread =>
      by_cases hd : d = []
      · exfalso
        apply hread
        subst hd
        unfold isTimeToReadSerial timeCacheInt getTimeCache
        simp
      · refine ⟨hd, ?_⟩
        have hget : timeCacheInt ⟨some (t, d), mi⟩ = pyInt t := by
          unfold timeCacheInt getTimeCache
          simp [ne_of_gt ht, hd]
        unfold isTimeToReadSerial at hread
        rw [hget] at hread
        split at hread
        · next hcond =>
          obtain ⟨hpt, hpn, hpm⟩ := hcond
          have habs : |pyInt t - pyInt now| < mi := by
            by_contra hcon
            exact hread (decide_eq_true (not_lt.mp hcon))
          have hpyt : pyInt t = ⌊t⌋ := by
            unfold pyInt
            rw [if_neg (not_lt.mpr (le_of_lt ht))]
          have hpyn : pyInt now = ⌊now⌋ := by
            unfold pyInt
            rw [if_neg (not_lt.mpr (le_trans (le_of_lt ht) htn))]
          rw [hpyt, hpyn] at habs
          have hfl : ⌊t⌋ ≤ ⌊now⌋ := Int.floor_mono htn
          have habs' : ⌊now⌋ - ⌊t⌋ < mi := by
            rwa [abs_sub_comm, abs_of_nonneg (by omega)] at habs
          have h1 : now < (⌊now⌋ : ℚ) + 1 := Int.lt_floor_add_one now
          have h2 : (⌊t⌋ : ℚ) ≤ t := Int.floor_le t
          have h3 : (⌊now⌋ : ℚ) + 1 ≤ (⌊t⌋ : ℚ) + (mi : ℚ) := by
            have hz : ⌊now⌋ + 1 ≤ ⌊t⌋ + mi := by omega
            exact_mod_cast hz
          linarith
        · exact absurd rfl hread
  · intro mi now rc
    have hit : isTimeToReadSerial ⟨none, mi⟩ now = true := by
      unfold isTimeToReadSerial timeCacheInt getTimeCache
      norm_num
    constructor <;> simp [readData, hit]
  · intro t d mi now rc ht hmi hd
    have hmiq : (1 : ℚ) ≤ (mi : ℚ) := by exact_mod_cast hmi
    have htn : t ≤ now := by linarith
    have hit : isTimeToReadSerial ⟨some (t, d), mi⟩ now = true := by
      by_cases hd0 : d = []
      · subst hd0
        unfold isTimeToReadSerial timeCacheInt getTimeCache
        simp
      · have hget : timeCacheInt ⟨some (t, d), mi⟩ = pyInt t := by
          unfold timeCacheInt getTimeCache
          simp [ne_of_gt ht, hd0]
        unfold isTimeToReadSerial
        rw [hget]
        split
        · next hcond =>
          apply decide_eq_true
          show mi ≤ |pyInt t - pyInt now|
          have hpyt : pyInt t = ⌊t⌋ := by
            unfold pyInt
            rw [if_neg (not_lt.mpr (le_of_lt ht))]
          have hpyn : pyInt now = ⌊now⌋ := by
            unfold pyInt
            rw [if_neg (not_lt.mpr (le_trans (le_of_lt ht) htn))]
          rw [hpyt, hpyn]
          have h4 : t + (mi : ℚ) ≤ now := by linarith
          have h5 : ⌊t + (mi : ℚ)⌋ ≤ ⌊now⌋ := Int.floor_mono h4
          rw [Int.floor_add_int] at h5
          have hfl : ⌊t⌋ ≤ ⌊now⌋ := by omega
          rw [abs_sub_comm, abs_of_nonneg (by omega)]
          omega
        · rfl
    constructor <;> simp [readData, hit]

/-- Witness for C7: a half-second-old cache is served (so the real age
is below the one-second interval), and a two-second-old cache triggers a
fresh round with `from_cache = False`. -/
theorem claim_C7_witness :
    (([("V", "1")] : SPacket) ≠ [] ∧ (5 / 2 : ℚ) - 2 < ((1 : Int) : ℚ))
    ∧ ((readData ⟨some (2, [("V", "1")]), 1⟩ 4 none).2.1 = false
        ∧ (readData ⟨some (2, [("V", "1")]), 1⟩ 4 none).2.2.dataCache
            = none) := by
  constructor
  · refine claim_C7.1 2 [("V", "1")] 1 (5 / 2) none (by norm_num)
      (by norm_num) (by norm_num) ?_
    have hit : isTimeToReadSerial ⟨some (2, [("V", "1")]), 1⟩ (5 / 2)
        = false := by
      have hflo : (⌊(5 / 2 : ℚ)⌋ : Int) = 2 := by norm_num
      unfold isTimeToReadSerial timeCacheInt getTimeCache pyInt
      norm_num [hflo]
    simp [readData, hit]
  · exact claim_C7.2.2 2 [("V", "1")] 1 4 none (by norm_num) (by norm_num)
      (by norm_num)

end VedirectM8
